import Mathlib

/-
Formal model of the data-iterator module of the brainstorm repository
(src/brainstorm/data_iterators.py, ~450 lines of Python).

The module provides composable data-feeding pipelines: source iterators
(Undivided, Minibatches) owning named numpy arrays, and decorator iterators
(AddGaussianNoise, Flip, OneHot, Pad, ...) that wrap an inner iterator and
transform each yielded batch.

Embedding conventions:
- A numpy array is modelled by nested lists; where an operation depends on
  the full numpy shape tuple (which nested lists do not always determine,
  e.g. for arrays with an empty axis), the shape is carried explicitly.
- Python dicts of named data are modelled as association lists over an
  abstract key type with decidable equality (the source uses string keys;
  nothing depends on the key type).  Assignment `d[k] = v` is `dictSet`.
- Exceptions are modelled by `Except DIErr`.  The source raises
  `IteratorValidationError` (with a message, elided here) for explicit
  validation failures; a failing bare `assert` raises AssertionError and
  `min`/`max` of an empty sequence raises ValueError: these are separate
  constructors because several claims are about which error is raised.
- Random draws are modelled by passing the drawn values explicitly (the
  per-iterator generator `self.rnd` becomes an explicit argument giving
  the value of each draw).
- numpy float arithmetic is modelled over the rationals.
-/

namespace DataIterators

/-- Error outcomes of the module.  `validationError` models raising
`IteratorValidationError` (message elided); `assertionError` models a failing
bare Python `assert`; `valueError` models a ValueError raised by numpy or by
builtins such as `min` on an empty sequence. -/
inductive DIErr : Type where
  | validationError : DIErr
  | assertionError : DIErr
  | valueError : DIErr
  deriving DecidableEq, Repr

/-- True exactly when an outcome is a raised `IteratorValidationError`, the
error class the module uses for all its explicit shape and configuration
checks. -/
def raisesValidationError {β : Type} : Except DIErr β → Bool
  | .error .validationError => true
  | _ => false

instance {ε β : Type} [DecidableEq ε] [DecidableEq β] : DecidableEq (Except ε β) := by
  intro x y
  cases x with
  | error e1 =>
      cases y with
      | error e2 =>
          exact decidable_of_iff (e1 = e2)
            ⟨fun h => by rw [h], fun h => by injection h⟩
      | ok b => exact .isFalse (fun h => Except.noConfusion h)
  | ok a =>
      cases y with
      | error e2 => exact .isFalse (fun h => Except.noConfusion h)
      | ok b =>
          exact decidable_of_iff (a = b)
            ⟨fun h => by rw [h], fun h => by injection h⟩

/-- Python dict lookup `d.get(k)` / `d[k]` on an association list. -/
def dictGet {κ β : Type} [DecidableEq κ] (k : κ) : List (κ × β) → Option β
  | [] => none
  | p :: rest => if p.1 = k then some p.2 else dictGet k rest

/-- Python dict assignment `d[k] = v` on an association list. -/
def dictSet {κ β : Type} [DecidableEq κ] (k : κ) (v : β) : List (κ × β) → List (κ × β)
  | [] => [(k, v)]
  | p :: rest => if p.1 = k then (k, v) :: rest else p :: dictSet k v rest

/-- Python list/array basic slice `l[a:b]` with `0 <= a <= b` (numpy clamps
out-of-range bounds). -/
def npSlice {γ : Type} (l : List γ) (a b : Nat) : List γ :=
  (l.drop a).take (b - a)

/-- `int(math.ceil(n / b))` for natural `n` and positive `b`
(`from __future__ import division` makes `/` true division in the source). -/
def ceilDiv (n b : Nat) : Nat :=
  (n + b - 1) / b

/-- Python `min` over the values of a nonempty collection (`[]` is never
reached on the paths the source exercises: `min()` of an empty dict is the
`valueError` case, handled by the caller). -/
def listMin : List Nat → Nat
  | [] => 0
  | x :: xs => xs.foldl min x

/-- Python `max` over the values of a nonempty collection. -/
def listMax : List Nat → Nat
  | [] => 0
  | x :: xs => xs.foldl max x

/-- `np.max` of a list of naturals (only applied to nonempty slices in the
source). -/
def npMaxNat (l : List Nat) : Nat :=
  l.foldr max 0

/-- `_assert_correct_data_format(named_data)` of data_iterators.py, acting on
the name-to-shape view of the named arrays.  Checks every array has at least
3 dimensions, then that the sizes of axis 1 (sequence count) and axis 0
(time steps) agree across all entries, and returns the common
(sequence count, time steps).  `min()` of an empty dict raises ValueError. -/
def _assert_correct_data_format {κ : Type} (named : List (κ × List Nat)) :
    Except DIErr (Nat × Nat) :=
  if named.all (fun p => decide (3 ≤ p.2.length)) then
    if named.isEmpty then
      .error .valueError
    else
      let seqs := named.map (fun p => p.2.getD 1 0)
      let times := named.map (fun p => p.2.getD 0 0)
      if listMin seqs ≠ listMax seqs then .error .validationError
      else if listMin times ≠ listMax times then .error .validationError
      else .ok (listMin seqs, listMin times)
  else .error .validationError

/-- Index of the first `true` in a list of booleans; equals the length when
there is none. -/
def firstTrueIdx : List Bool → Nat
  | [] => 0
  | b :: rest => if b then 0 else firstTrueIdx rest + 1

/-- `np.argmax` of a boolean vector: index of the first occurrence of the
maximum, i.e. of the first `true`, and 0 when all entries are `false`. -/
def npArgmaxBool (l : List Bool) : Nat :=
  if l.any id then firstTrueIdx l else 0

/-- `_calculate_lengths_from_mask(mask)` of data_iterators.py.  `shape` is
the full numpy shape of the mask and `grid` its (time, batch) grid of scalar
entries (the trailing axes of the mask hold a single scalar once the assert
`mask.shape[2:] == (1,)` has passed, so a cell is one integer).  Per
sequence j the source computes `mask.shape[0] - argmax(reversed nonzero
column)` and then overwrites all-zero columns with 0. -/
def _calculate_lengths_from_mask (shape : List Nat) (grid : List (List Int)) :
    Except DIErr (List Nat) :=
  if shape.drop 2 = [1] then
    let T := grid.length
    let B := (grid.headD []).length
    .ok ((List.range B).map (fun j =>
      let col := grid.map (fun row => decide (row.getD j 0 ≠ 0))
      let len := T - npArgmaxBool col.reverse
      if col.any id then len else 0))
  else .error .assertionError

/-- A named numpy array as the iterators see it: its full shape tuple and
its content arranged by the first two axes (axis 0 = time, axis 1 = batch);
a cell holds the content of the remaining axes. -/
structure NamedArr (α : Type) where
  shape : List Nat
  grid : List (List α)
  deriving DecidableEq, Repr

/-- The `Undivided` source iterator: stores the validated named arrays, a
fixed length of 1 and their shapes. -/
structure Undivided (κ α : Type) where
  data_shapes : List (κ × List Nat)
  length : Nat
  data : List (κ × NamedArr α)
  deriving DecidableEq, Repr

/-- `Undivided.__init__`: validates the named data via
`_assert_correct_data_format` and stores it with length 1. -/
def Undivided.make {κ α : Type} (named : List (κ × NamedArr α)) :
    Except DIErr (Undivided κ α) := do
  let _ ← _assert_correct_data_format (named.map (fun p => (p.1, p.2.shape)))
  .ok { data_shapes := named.map (fun p => (p.1, p.2.shape)),
        length := 1,
        data := named }

/-- `Undivided.__call__`: yields the entire stored mapping exactly once. -/
def Undivided.call {κ α : Type} (u : Undivided κ α) : List (List (κ × NamedArr α)) :=
  [u.data]

/-- The `cut_according_to` argument of `Minibatches`: either a data name or
an explicit per-sequence length vector. -/
inductive CutSpec (κ : Type) : Type where
  | key : κ → CutSpec κ
  | vec : List Nat → CutSpec κ
  deriving DecidableEq, Repr

/-- The `Minibatches` source iterator after construction. -/
structure Minibatches (κ α : Type) where
  data_shapes : List (κ × List Nat)
  length : Nat
  data : List (κ × List (List α))
  shuffle : Bool
  batch_size : Nat
  seq_lens : List Nat
  deriving DecidableEq, Repr

/-- The mask branch of the `cut_according_to` dispatch: when the named
entry is present, its array is handed to `_calculate_lengths_from_mask`
(`toNum` reads the scalar cell, modelling `mask[:, :, 0]`); when absent,
`np.ones(nr_sequences, dtype=int) * time_steps`. -/
def seqLensFromKey {α : Type} (toNum : α → Int) :
    Option (NamedArr α) → Nat → Nat → Except DIErr (List Nat)
  | some arr, _, _ =>
      _calculate_lengths_from_mask arr.shape
        (arr.grid.map (fun row => row.map toNum))
  | none, n, t => .ok (List.replicate n t)

/-- The `cut_according_to` dispatch of `Minibatches.__init__`: a data name
goes through the mask branch; an explicit vector must have exactly
`nr_sequences` entries — the bare Python
`assert self.seq_lens.shape == (nr_sequences,)` raises AssertionError
otherwise. -/
def computeSeqLens {κ α : Type} [DecidableEq κ] (toNum : α → Int)
    (named : List (κ × NamedArr α)) (n t : Nat) :
    CutSpec κ → Except DIErr (List Nat)
  | .key s => seqLensFromKey toNum (dictGet s named) n t
  | .vec l => if l.length = n then .ok l else .error .assertionError

/-- `Minibatches.__init__`.  Validates the data format, sets
`length = int(math.ceil(nr_sequences / batch_size))`, derives `seq_lens`
via `computeSeqLens` and stores the named data. -/
def Minibatches.make {κ α : Type} [DecidableEq κ] (toNum : α → Int)
    (batch_size : Nat) (shuffle : Bool) (cut : CutSpec κ)
    (named : List (κ × NamedArr α)) : Except DIErr (Minibatches κ α) := do
  let nt ← _assert_correct_data_format (named.map (fun p => (p.1, p.2.shape)))
  let nr_batches := ceilDiv nt.1 batch_size
  let seq_lens ← computeSeqLens toNum named nt.1 nt.2 cut
  .ok { data_shapes := named.map (fun p => (p.1, p.2.shape)),
        length := nr_batches,
        data := named.map (fun p => (p.1, p.2.grid)),
        shuffle := shuffle,
        batch_size := batch_size,
        seq_lens := seq_lens }

/-- `Minibatches.__call__`.  `indices = np.arange(self.length)` is shuffled
in place when `self.shuffle` is set; `shufflePerm` is the order the
generator produced (a permutation of `range length`).  For each index the
batch slice on axis 1 is `[idx*batch_size, (idx+1)*batch_size)` and the time
slice on axis 0 is `[0, max seq_lens[batch_slice])`. -/
def Minibatches.call {κ α : Type} (m : Minibatches κ α) (shufflePerm : List Nat) :
    List (List (κ × List (List α))) :=
  let indices := if m.shuffle then shufflePerm else List.range m.length
  indices.map (fun idx =>
    let tcut := npMaxNat (npSlice m.seq_lens (idx * m.batch_size)
      ((idx + 1) * m.batch_size))
    m.data.map (fun p =>
      (p.1, (npSlice p.2 0 tcut).map (fun row =>
        npSlice row (idx * m.batch_size) ((idx + 1) * m.batch_size)))))

/-- One step of `AddGaussianNoise.__call__` on a single batch: for every
`(key, std)` of `std_dict`, replace `data[key]` by
`data[key] + std * rnd.standard_normal(shape) + mean` elementwise, where
`noise key` is the array the generator drew for that key and `mean` defaults
to 0 for keys missing from `mean_dict`. -/
def addGaussianNoiseStep {κ : Type} [DecidableEq κ]
    (mean_dict : List (κ × ℚ)) (noise : κ → List ℚ) :
    List (κ × ℚ) → List (κ × List ℚ) → List (κ × List ℚ)
  | [], data => data
  | kv :: rest, data =>
      let mean := (dictGet kv.1 mean_dict).getD 0
      let a := (dictGet kv.1 data).getD []
      addGaussianNoiseStep mean_dict noise rest
        (dictSet kv.1 (List.zipWith (fun x z => x + kv.2 * z + mean) a (noise kv.1)) data)

/-- `AddGaussianNoise.__call__`: transforms each batch of the inner iterator
in order; `noise i` gives the values the generator drew while processing the
i-th batch. -/
def addGaussianNoiseCall {κ : Type} [DecidableEq κ]
    (std_dict mean_dict : List (κ × ℚ)) (noise : Nat → κ → List ℚ) :
    Nat → List (List (κ × List ℚ)) → List (List (κ × List ℚ))
  | _, [] => []
  | i, b :: rest =>
      addGaussianNoiseStep mean_dict (noise i) std_dict b ::
        addGaussianNoiseCall std_dict mean_dict noise (i + 1) rest

/-- A 5D array (time, batch, channel, height, width) as nested lists. -/
abbrev Arr5 (α : Type) :=
  List (List (List (List (List α))))

/-- `data[name][..., ::-1]`: reverse the element order along the last
(width) axis of a 5D array. -/
def flipArr {α : Type} (a : Arr5 α) : Arr5 α :=
  a.map (List.map (List.map (List.map List.reverse)))

/-- One step of `Flip.__call__` on a single batch: for each configured
`(name, prob)`, one Bernoulli draw `samples name` for the whole batch; when
`samples name < prob` the named array is reversed along its last axis. -/
def flipStep {κ : Type} [DecidableEq κ] (samples : κ → ℚ) :
    List (κ × ℚ) → List (κ × Arr5 ℚ) → List (κ × Arr5 ℚ)
  | [], data => data
  | kv :: rest, data =>
      flipStep samples rest
        (if samples kv.1 < kv.2 then
          dictSet kv.1 (flipArr ((dictGet kv.1 data).getD [])) data
        else data)

/-- A 3D array as nested lists. -/
abbrev Arr3 (α : Type) :=
  List (List (List α))

/-- The value of a named data entry as `OneHot` manipulates it: the integer
class-index arrays it reads, or the boolean arrays it writes back. -/
inductive NPVal : Type where
  | ints : Arr3 Nat → NPVal
  | bools : Arr3 Bool → NPVal
  deriving DecidableEq, Repr

/-- Row `k` of `np.eye(V, dtype=bool)`. -/
def eyeRow (V k : Nat) : List Bool :=
  (List.range V).map (fun i => decide (i = k))

/-- `np.eye(V, dtype=bool)[a]` followed by
`np.reshape(_, (shape[0], shape[1], shape[3]))`: every scalar class index of
the (T, B, 1) array becomes a one-hot V-vector and the singleton axis is
merged away, giving shape (T, B, V). -/
def oneHotArr (V : Nat) (a : Arr3 Nat) : Arr3 Bool :=
  a.map (fun t => t.map (fun cell => (cell.map (eyeRow V)).flatten))

/-- One-hot encoding of one named value.  A configured key is read before
it is ever written (dict keys are unique), so only the `ints` case is
reachable on the runs the iterator performs; `bools` is returned unchanged
to keep the function total. -/
def oneHotVal (V : Nat) : NPVal → NPVal
  | .ints a => .bools (oneHotArr V a)
  | .bools a => .bools a

/-- `OneHot.__init__` validation loop: every configured key must be present
in the inner data shapes and its declared shape must satisfy
`shape[-1] == 1 and len(shape) == 3`; a violation raises
`IteratorValidationError`.  The `isinstance(vocab_size, int)` check is
trivially true under this typing (vocabulary sizes are integers here) and
imposes nothing further: in particular no positivity check exists. -/
def oneHotValidate {κ : Type} [DecidableEq κ] :
    List (κ × Nat) → List (κ × List Nat) → Except DIErr Unit
  | [], _ => .ok ()
  | kv :: rest, shapes =>
      match dictGet kv.1 shapes with
      | none => .error .validationError
      | some shape =>
          if shape.getLast? = some 1 ∧ shape.length = 3 then
            oneHotValidate rest shapes
          else .error .validationError

/-- The per-batch loop of `OneHot.__call__`: for each configured key, mutate
`data[name]` to its one-hot expansion and yield the whole (mutated) batch
mapping; the `yield` sits inside the per-key loop, so one inner batch is
yielded once per configured key. -/
def oneHotLoop {κ : Type} [DecidableEq κ] :
    List (κ × Nat) → List (κ × NPVal) → List (List (κ × NPVal))
  | [], _ => []
  | kv :: rest, data =>
      let d2 := dictSet kv.1 (oneHotVal kv.2 ((dictGet kv.1 data).getD (.ints []))) data
      d2 :: oneHotLoop rest d2

/-- `OneHot.__call__`: runs the per-key loop on every batch of the inner
iterator. -/
def oneHotCall {κ : Type} [DecidableEq κ] (vocab : List (κ × Nat))
    (inner : List (List (κ × NPVal))) : List (List (κ × NPVal)) :=
  inner.flatMap (oneHotLoop vocab)

/-- The stop index of the Python slice `size:-size` on an axis of length
`L`: a negative stop `-size` means `L - size`, but `-0` is just `0`, so a
padding size of 0 yields an empty slice rather than the full axis. -/
def pySliceStop (s L : Nat) : Nat :=
  if s = 0 then 0 else L - s

/-- numpy broadcast of a source axis of length `l.length` onto a target
region of length `n`: exact lengths copy through, a length-1 source repeats.
Only called after compatibility was checked. -/
def broadcastRows {γ : Type} (n : Nat) (d : γ) (l : List γ) : List γ :=
  if l.length = n then l else List.replicate n (l.headD d)

/-- The assignment `new[:, :, :, size:-size, size:-size] = old` restricted
to one (height, width) plane: rows `[rs, re)` of `base` are overwritten, and
within each of them the entries `[cs, ce)`. -/
def assignCenter (rs re cs ce : Nat) (base img : List (List ℚ)) :
    List (List ℚ) :=
  base.take rs ++
    (List.zipWith (fun baseRow srcRow =>
        baseRow.take cs ++ broadcastRows (ce - cs) 0 srcRow ++ baseRow.drop ce)
      ((base.drop rs).take (re - rs))
      (broadcastRows (re - rs) [] img)) ++
    base.drop re

/-- The body of the per-key transform of `Pad.__call__` once the spatial
sizes (h, w) of the incoming array are known: builds
`val * np.ones((t, b, c, h + 2*size, w + 2*size))` and assigns the original
array into `new[:, :, :, size:-size, size:-size]`.  numpy checks broadcast
compatibility of the source shape against the target region before writing
and raises ValueError on a mismatch; a length-1 source axis broadcasts
silently. -/
def padArrCore (size : Nat) (val : ℚ) (a : Arr5 ℚ) (h w : Nat) :
    Except DIErr (Arr5 ℚ) :=
  if (h = min (pySliceStop size (h + 2 * size)) (h + 2 * size)
        - min size (h + 2 * size) ∨ h = 1) ∧
     (w = min (pySliceStop size (w + 2 * size)) (w + 2 * size)
        - min size (w + 2 * size) ∨ w = 1) then
    .ok (a.map (fun d4 => d4.map (fun d3 => d3.map (fun img =>
      assignCenter (min size (h + 2 * size))
        (min (pySliceStop size (h + 2 * size)) (h + 2 * size))
        (min size (w + 2 * size))
        (min (pySliceStop size (w + 2 * size)) (w + 2 * size))
        (List.replicate (h + 2 * size) (List.replicate (w + 2 * size) val))
        img))))
  else .error .valueError

/-- The per-key body of `Pad.__call__`: reads
`t, b, c, h, w = data[name].shape` off the array and runs the padded
assignment. -/
def padArr (size : Nat) (val : ℚ) (a : Arr5 ℚ) : Except DIErr (Arr5 ℚ) :=
  padArrCore size val a ((((a.headD []).headD []).headD []).length)
    (((((a.headD []).headD []).headD []).headD []).length)

/-- The per-batch loop of `Pad.__call__`: pads each configured key in turn
with its size and fill value (`value_dict.get(name, 0.0)`). -/
def padStep {κ : Type} [DecidableEq κ] :
    List (κ × Nat) → List (κ × ℚ) → List (κ × Arr5 ℚ) →
    Except DIErr (List (κ × Arr5 ℚ))
  | [], _, data => .ok data
  | kv :: rest, value_dict, data => do
      let val := (dictGet kv.1 value_dict).getD 0
      let p ← padArr kv.2 val ((dictGet kv.1 data).getD [])
      padStep rest value_dict (dictSet kv.1 p data)

/-- Cropping the center region of a padded 5D array back out: drops the
`s`-wide border and keeps the central (h, w) window of every plane.  This is
the claim-side inverse operation used to state the Pad round trip. -/
def cropCenter (s h w : Nat) (p : Arr5 ℚ) : Arr5 ℚ :=
  p.map (List.map (List.map (fun img =>
    ((img.drop s).take h).map (fun r => (r.drop s).take w))))

/-- The explicit padded form: a `s`-wide border of `val` on all four sides
of every (height, width) plane, the original plane in the center. -/
def paddedExplicit (s : Nat) (val : ℚ) (w : Nat) (a : Arr5 ℚ) : Arr5 ℚ :=
  a.map (List.map (List.map (fun img =>
    List.replicate s (List.replicate (w + 2 * s) val) ++
      img.map (fun r => List.replicate s val ++ r ++ List.replicate s val) ++
      List.replicate s (List.replicate (w + 2 * s) val))))

/-- The batch-axis index interval `[idx*bs, (idx+1)*bs)` clipped to the
`n` available sequences: the indices the minibatch with (permuted) index
`idx` covers. -/
def coveredIdx (bs n idx : Nat) : List Nat :=
  List.range' (idx * bs) (min ((idx + 1) * bs) n - idx * bs)

/-- Rectangularity of a 3D nested list with the given axis sizes. -/
def IsShape3 {γ : Type} (a : Arr3 γ) (T B C : Nat) : Prop :=
  a.length = T ∧ ∀ r ∈ a, r.length = B ∧ ∀ c ∈ r, c.length = C

/-- Rectangularity of a 5D nested list with the given axis sizes. -/
def IsShape5 {γ : Type} (a : Arr5 γ) (t b c h w : Nat) : Prop :=
  a.length = t ∧ ∀ x ∈ a, x.length = b ∧ ∀ y ∈ x, y.length = c ∧
    ∀ im ∈ y, im.length = h ∧ ∀ r ∈ im, r.length = w

instance {γ : Type} (a : Arr3 γ) (T B C : Nat) : Decidable (IsShape3 a T B C) := by
  unfold IsShape3; infer_instance

instance {γ : Type} (a : Arr5 γ) (t b c h w : Nat) :
    Decidable (IsShape5 a t b c h w) := by
  unfold IsShape5; infer_instance

/-! ### Association-list helper lemmas -/

theorem dictGet_dictSet_self {κ β : Type} [DecidableEq κ] (k : κ) (v : β)
    (d : List (κ × β)) : dictGet k (dictSet k v d) = some v := by
  induction d with
  | nil => simp [dictGet, dictSet]
  | cons p rest ih =>
      by_cases hp : p.1 = k
      · simp [dictGet, dictSet, hp]
      · simp [dictGet, dictSet, hp, ih]

theorem dictGet_dictSet_ne {κ β : Type} [DecidableEq κ] (k1 k : κ) (v : β)
    (d : List (κ × β)) (hne : k1 ≠ k) :
    dictGet k (dictSet k1 v d) = dictGet k d := by
  induction d with
  | nil => simp [dictGet, dictSet, hne]
  | cons p rest ih =>
      by_cases hp : p.1 = k1
      · simp [dictGet, dictSet, hp, hne]
      · simp only [dictSet, hp, if_false]
        by_cases hk : p.1 = k
        · simp [dictGet, hk]
        · simp [dictGet, hk, ih]

theorem map_map_invol {γ : Type} (f : γ → γ) (hf : ∀ y, f (f y) = y)
    (l : List γ) : (l.map f).map f = l := by
  rw [List.map_map, show f ∘ f = id from funext hf, List.map_id]

theorem flipArr_flipArr {α : Type} (a : Arr5 α) : flipArr (flipArr a) = a := by
  unfold flipArr
  apply map_map_invol
  intro y
  apply map_map_invol
  intro z
  apply map_map_invol
  intro u
  apply map_map_invol
  intro r
  exact List.reverse_reverse r

theorem gaussStep_unconfigured {κ : Type} [DecidableEq κ]
    (mean_dict : List (κ × ℚ)) (noise : κ → List ℚ)
    (std_dict : List (κ × ℚ)) (data : List (κ × List ℚ)) (key : κ)
    (h : dictGet key std_dict = none) :
    dictGet key (addGaussianNoiseStep mean_dict noise std_dict data)
      = dictGet key data := by
  induction std_dict generalizing data with
  | nil => rfl
  | cons kv rest ih =>
      have hne : kv.1 ≠ key := by
        intro he
        simp [dictGet, he] at h
      have h2 : dictGet key rest = none := by
        simpa [dictGet, hne] using h
      simp only [addGaussianNoiseStep]
      rw [ih _ h2, dictGet_dictSet_ne _ _ _ _ hne]

/-! ### Claim theorems -/

/-- C6: for every valid named-array set (arrays of at least 3 dimensions
sharing the sizes of axes 0 and 1, i.e. those `Undivided.make` accepts),
`Undivided` has declared length 1 and its iteration yields exactly one
batch equal to the input mapping, unchanged. -/
theorem undivided_single_batch {κ α : Type} (named : List (κ × NamedArr α))
    (u : Undivided κ α) (h : Undivided.make named = .ok u) :
    u.length = 1 ∧ u.call = [named] := by
  unfold Undivided.make at h
  cases hv : _assert_correct_data_format (named.map (fun p => (p.1, p.2.shape))) with
  | error e =>
      rw [hv] at h
      exact absurd h (by simp [Bind.bind, Except.bind])
  | ok nt =>
      rw [hv] at h
      simp only [Bind.bind, Except.bind, Except.ok.injEq] at h
      subst h
      exact ⟨rfl, rfl⟩

/-- Witness for C6 at a concrete one-array input. -/
theorem undivided_single_batch_witness :
    Undivided.make [((0 : Nat), (⟨[1, 1, 1], [[(5 : Nat)]]⟩ : NamedArr Nat))]
      = .ok ⟨[(0, [1, 1, 1])], 1, [(0, ⟨[1, 1, 1], [[5]]⟩)]⟩ ∧
    (⟨[(0, [1, 1, 1])], 1, [(0, ⟨[1, 1, 1], [[5]]⟩)]⟩ : Undivided Nat Nat).length = 1 ∧
    (⟨[(0, [1, 1, 1])], 1, [(0, ⟨[1, 1, 1], [[5]]⟩)]⟩ : Undivided Nat Nat).call
      = [[(0, ⟨[1, 1, 1], [[5]]⟩)]] :=
  ⟨rfl, undivided_single_batch _ _ rfl⟩

/-- C9: every batch yielded by `AddGaussianNoise` leaves every key that is
not configured in `std_dict` unchanged from the inner iterator batch it was
built from (only configured keys get noise added). -/
theorem gaussian_noise_unconfigured_frame {κ : Type} [DecidableEq κ]
    (std_dict mean_dict : List (κ × ℚ)) (noise : Nat → κ → List ℚ) (key : κ)
    (h : dictGet key std_dict = none) (j : Nat)
    (inner : List (List (κ × List ℚ))) (i : Nat) :
    ((addGaussianNoiseCall std_dict mean_dict noise j inner)[i]?).map (dictGet key)
      = (inner[i]?).map (dictGet key) := by
  induction inner generalizing j i with
  | nil => rfl
  | cons b rest ih =>
      cases i with
      | zero =>
          simp [addGaussianNoiseCall, gaussStep_unconfigured _ _ _ _ _ h]
      | succ n =>
          simp only [addGaussianNoiseCall, List.getElem?_cons_succ]
          exact ih (j + 1) n

/-- Witness for C9 at a concrete input: key 1 is unconfigured and passes
through unchanged. -/
theorem gaussian_noise_unconfigured_frame_witness :
    dictGet 1 [((0 : Nat), (2 : ℚ))] = none ∧
    ((addGaussianNoiseCall [((0 : Nat), (2 : ℚ))] [] (fun _ _ => [1, 1]) 0
        [[(0, [(3 : ℚ), 4]), (1, [(5 : ℚ), 6])]])[0]?).map (dictGet 1)
      = (([[(0, [(3 : ℚ), 4]), (1, [(5 : ℚ), 6])]] :
          List (List (Nat × List ℚ)))[0]?).map (dictGet 1) :=
  ⟨by decide,
    gaussian_noise_unconfigured_frame [((0 : Nat), (2 : ℚ))] [] (fun _ _ => [1, 1]) 1
      (by decide) 0 [[(0, [(3 : ℚ), 4]), (1, [(5 : ℚ), 6])]] 0⟩

/-- C8: one triggered Bernoulli draw makes `Flip` reverse the configured
array along its last (width) axis, and applying the per-batch transform
twice with both draws forced to trigger restores the original array
exactly (reversal is an involution). -/
theorem flip_involution {κ : Type} [DecidableEq κ] (k : κ) (p u1 u2 : ℚ)
    (data : List (κ × Arr5 ℚ)) (a : Arr5 ℚ)
    (h1 : u1 < p) (h2 : u2 < p) (hk : dictGet k data = some a) :
    dictGet k (flipStep (fun _ => u1) [(k, p)] data) = some (flipArr a) ∧
    dictGet k (flipStep (fun _ => u2) [(k, p)]
        (flipStep (fun _ => u1) [(k, p)] data)) = some a := by
  have hstep1 : flipStep (fun _ => u1) [(k, p)] data
      = dictSet k (flipArr a) data := by
    simp [flipStep, h1, hk]
  have hget1 : dictGet k (flipStep (fun _ => u1) [(k, p)] data)
      = some (flipArr a) := by
    rw [hstep1]
    exact dictGet_dictSet_self _ _ _
  refine ⟨hget1, ?_⟩
  have hstep2 : flipStep (fun _ => u2) [(k, p)]
      (flipStep (fun _ => u1) [(k, p)] data)
      = dictSet k (flipArr (flipArr a)) (flipStep (fun _ => u1) [(k, p)] data) := by
    rw [hstep1]
    simp [flipStep, h2, dictGet_dictSet_self]
  rw [hstep2, flipArr_flipArr, dictGet_dictSet_self]

/-- Witness for C8 at a concrete 5D array: flipping twice restores it. -/
theorem flip_involution_witness :
    ((1 : ℚ) / 4 < 1 / 2 ∧ (1 : ℚ) / 3 < 1 / 2 ∧
      dictGet 0 [((0 : Nat), [[[[[(1 : ℚ), 2], [3, 4]]]]])]
        = some [[[[[(1 : ℚ), 2], [3, 4]]]]]) ∧
    dictGet 0 (flipStep (fun _ => (1 : ℚ) / 4) [((0 : Nat), 1 / 2)]
        [(0, [[[[[(1 : ℚ), 2], [3, 4]]]]])])
      = some (flipArr [[[[[(1 : ℚ), 2], [3, 4]]]]]) ∧
    dictGet 0 (flipStep (fun _ => (1 : ℚ) / 3) [((0 : Nat), 1 / 2)]
        (flipStep (fun _ => (1 : ℚ) / 4) [((0 : Nat), 1 / 2)]
          [(0, [[[[[(1 : ℚ), 2], [3, 4]]]]])]))
      = some [[[[[(1 : ℚ), 2], [3, 4]]]]] :=
  ⟨⟨by norm_num, by norm_num, by decide⟩,
    flip_involution 0 (1 / 2) (1 / 4) (1 / 3) _ _ (by norm_num) (by norm_num)
      (by decide)⟩

theorem firstTrueIdx_eq_of (r : List Bool) (m : Nat) (hm : r[m]? = some true)
    (hlow : ∀ i, i < m → r[i]? = some false) : firstTrueIdx r = m := by
  induction r generalizing m with
  | nil => simp at hm
  | cons b rest ih =>
      cases m with
      | zero =>
          rw [List.getElem?_cons_zero] at hm
          have hb : b = true := by simpa using hm
          simp [firstTrueIdx, hb]
      | succ n =>
          have hb : b = false := by
            have h0 := hlow 0 (Nat.succ_pos n)
            rw [List.getElem?_cons_zero] at h0
            simpa using h0
          have hrec : firstTrueIdx rest = n := by
            apply ih
            · simpa using hm
            · intro i hi
              have hi1 := hlow (i + 1) (by omega)
              simpa using hi1
          simp [firstTrueIdx, hb, hrec]

/-- C4: for a mask of shape (T, B, 1), the derived length of sequence j is
0 when column j is entirely zero, and (index of the last nonzero entry) + 1
otherwise; in particular a single nonzero at time t gives length t + 1. -/
theorem lengths_from_mask_correct (T B j : Nat) (grid : List (List Int))
    (hT : grid.length = T) (hTpos : 0 < T)
    (hrect : ∀ row ∈ grid, row.length = B) (hj : j < B) :
    ((∀ i, i < T → (grid.getD i []).getD j 0 = 0) →
      (_calculate_lengths_from_mask [T, B, 1] grid).map (fun L => L.getD j 0)
        = .ok 0) ∧
    (∀ k, k < T → (grid.getD k []).getD j 0 ≠ 0 →
      (∀ i, k < i → i < T → (grid.getD i []).getD j 0 = 0) →
      (_calculate_lengths_from_mask [T, B, 1] grid).map (fun L => L.getD j 0)
        = .ok (k + 1)) := by
  have hlenB : (grid.headD []).length = B := by
    cases grid with
    | nil => rw [List.length_nil] at hT; omega
    | cons r rest => exact hrect r (List.mem_cons_self r rest)
  have hres : (_calculate_lengths_from_mask [T, B, 1] grid).map (fun L => L.getD j 0)
      = .ok (if (grid.map (fun row => decide (row.getD j 0 ≠ 0))).any id then
          T - npArgmaxBool (grid.map (fun row => decide (row.getD j 0 ≠ 0))).reverse
        else 0) := by
    unfold _calculate_lengths_from_mask
    rw [if_pos (show (([T, B, 1] : List Nat).drop 2) = [1] from rfl)]
    simp only [Except.map]
    congr 1
    rw [hlenB, List.getD_eq_getElem?_getD, List.getElem?_map,
      List.getElem?_range hj]
    simp [hT]
  set col := grid.map (fun row => decide (row.getD j 0 ≠ 0)) with hcol
  have hcollen : col.length = T := by
    rw [hcol, List.length_map, hT]
  have hcolget : ∀ i, i < T →
      col[i]? = some (decide ((grid.getD i []).getD j 0 ≠ 0)) := by
    intro i hi
    have hi2 : i < grid.length := by omega
    rw [hcol, List.getElem?_map, List.getElem?_eq_getElem hi2]
    simp [List.getD_eq_getElem?_getD, List.getElem?_eq_getElem hi2]
  constructor
  · intro hz
    have hany : col.any id = false := by
      rw [Bool.eq_false_iff]
      intro hco
      rcases List.any_eq_true.mp hco with ⟨x, hxmem, hx⟩
      rcases List.getElem_of_mem hxmem with ⟨i, hilt, hieq⟩
      have hiT : i < T := by omega
      have hsome : col[i]? = some x := by
        rw [List.getElem?_eq_getElem hilt, hieq]
      rw [hcolget i hiT, hz i hiT] at hsome
      simp at hsome
      simp [hsome] at hx
    rw [hres, hany]
    simp
  · intro k hk hnz hz
    have hktrue : col[k]? = some true := by
      rw [hcolget k hk]
      simpa using hnz
    have hany : col.any id = true := by
      apply List.any_eq_true.mpr
      exact ⟨true, List.getElem?_mem hktrue, rfl⟩
    have hanyrev : col.reverse.any id = true := by
      apply List.any_eq_true.mpr
      rcases List.any_eq_true.mp hany with ⟨x, hxm, hx⟩
      exact ⟨x, List.mem_reverse.mpr hxm, hx⟩
    have hrev : firstTrueIdx col.reverse = T - 1 - k := by
      apply firstTrueIdx_eq_of
      · rw [List.getElem?_reverse (show T - 1 - k < col.length by omega)]
        rw [hcollen]
        have h3 : T - 1 - (T - 1 - k) = k := by omega
        rw [h3]
        exact hktrue
      · intro i hi
        rw [List.getElem?_reverse (show i < col.length by omega)]
        rw [hcollen]
        have h4 : T - 1 - i < T := by omega
        rw [hcolget _ h4, hz (T - 1 - i) (by omega) h4]
        simp
    rw [hres, hany]
    simp only [if_true]
    have hargmax : npArgmaxBool col.reverse = T - 1 - k := by
      rw [npArgmaxBool, if_pos hanyrev, hrev]
    rw [hargmax]
    have h5 : T - (T - 1 - k) = k + 1 := by omega
    rw [h5]

/-- Witness for C4 at a concrete 3 by 2 mask whose column 0 has its last
nonzero entry at time 1, giving length 2. -/
theorem lengths_from_mask_correct_witness :
    (([[0, 1], [5, 0], [0, 0]] : List (List Int)).length = 3 ∧
      (∀ row ∈ ([[0, 1], [5, 0], [0, 0]] : List (List Int)), row.length = 2) ∧
      ((([[0, 1], [5, 0], [0, 0]] : List (List Int)).getD 1 []).getD 0 0 ≠ 0)) ∧
    (_calculate_lengths_from_mask [3, 2, 1] [[0, 1], [5, 0], [0, 0]]).map
        (fun L => L.getD 0 0) = .ok 2 :=
  ⟨⟨by decide, by decide, by decide⟩,
    (lengths_from_mask_correct 3 2 0 [[0, 1], [5, 0], [0, 0]] (by decide)
        (by decide) (by decide) (by decide)).2 1 (by decide) (by decide)
      (by
        intro i h1 h2
        have h3 : i = 2 := by omega
        subst h3
        decide)⟩

theorem oneHotLoop_length {κ : Type} [DecidableEq κ] (vocab : List (κ × Nat))
    (data : List (κ × NPVal)) : (oneHotLoop vocab data).length = vocab.length := by
  induction vocab generalizing data with
  | nil => rfl
  | cons kv rest ih => simp [oneHotLoop, ih]

/-- C2: `OneHot` yields the (mutated) batch once per configured key inside
its per-key loop, so `k` configured keys over `m` inner batches give `k*m`
yielded batches (zero when no key is configured); and the one-hot expansion
of a (T, B, 1) class-index array has shape (T, B, vocab_size). -/
theorem oneHot_yields_per_key {κ : Type} [DecidableEq κ] (vocab : List (κ × Nat))
    (inner : List (List (κ × NPVal))) :
    (oneHotCall vocab inner).length = vocab.length * inner.length ∧
    ∀ (V T B : Nat) (a : Arr3 Nat), IsShape3 a T B 1 →
      IsShape3 (oneHotArr V a) T B V := by
  constructor
  · induction inner with
    | nil => simp [oneHotCall]
    | cons b rest ih =>
        simp only [oneHotCall] at ih ⊢
        rw [List.flatMap_cons, List.length_append, oneHotLoop_length, ih,
          List.length_cons, Nat.mul_succ]
        omega
  · intro V T B a hsh
    simp only [IsShape3] at hsh ⊢
    obtain ⟨haT, hrows⟩ := hsh
    refine ⟨by simpa [oneHotArr] using haT, ?_⟩
    intro r hr
    rcases List.mem_map.mp hr with ⟨t, htmem, rfl⟩
    obtain ⟨htB, hcells⟩ := hrows t htmem
    refine ⟨by simpa using htB, ?_⟩
    intro c hc
    rcases List.mem_map.mp hc with ⟨cell, hcellmem, rfl⟩
    have h1 := hcells cell hcellmem
    cases cell with
    | nil => simp at h1
    | cons x tail =>
        cases tail with
        | nil => simp [eyeRow]
        | cons y tail2 => simp at h1

/-- Witness for C2: two configured keys over two inner batches yield four
batches, and a concrete (1, 2, 1) array one-hot expands to shape (1, 2, 2). -/
theorem oneHot_yields_per_key_witness :
    (oneHotCall [((0 : Nat), 2), ((1 : Nat), 3)]
        [[(0, NPVal.ints [[[0], [1]]])], []]).length = 2 * 2 ∧
    IsShape3 (oneHotArr 2 [[[0], [1]]]) 1 2 2 :=
  ⟨(oneHot_yields_per_key [((0 : Nat), 2), ((1 : Nat), 3)]
      [[(0, NPVal.ints [[[0], [1]]])], []]).1,
    (oneHot_yields_per_key [((0 : Nat), 2), ((1 : Nat), 3)]
      [[(0, NPVal.ints [[[0], [1]]])], []]).2 2 1 2 [[[0], [1]]] (by decide)⟩

theorem oneHotValidate_ok_iff {κ : Type} [DecidableEq κ] (vocab : List (κ × Nat))
    (shapes : List (κ × List Nat)) :
    oneHotValidate vocab shapes = .ok () ↔
      ∀ kv ∈ vocab, ∃ sh, dictGet kv.1 shapes = some sh ∧
        sh.getLast? = some 1 ∧ sh.length = 3 := by
  induction vocab with
  | nil => simp [oneHotValidate]
  | cons kv rest ih =>
      cases hg : dictGet kv.1 shapes with
      | none =>
          simp only [oneHotValidate, hg]
          constructor
          · intro h
            exact absurd h (by simp)
          · intro hall
            rcases hall kv (List.mem_cons_self kv rest) with ⟨sh, hsh, _⟩
            rw [hg] at hsh
            cases hsh
      | some sh =>
          by_cases hc : sh.getLast? = some 1 ∧ sh.length = 3
          · simp only [oneHotValidate, hg, if_pos hc]
            rw [ih]
            constructor
            · intro hall kv2 hmem
              rcases List.mem_cons.mp hmem with rfl | hmem2
              · exact ⟨sh, hg, hc.1, hc.2⟩
              · exact hall kv2 hmem2
            · intro hall kv2 hmem
              exact hall kv2 (List.mem_cons_of_mem kv hmem)
          · simp only [oneHotValidate, hg, if_neg hc]
            constructor
            · intro h
              exact absurd h (by simp)
            · intro hall
              rcases hall kv (List.mem_cons_self kv rest) with ⟨sh2, hsh2, hl, hlen⟩
              rw [hg] at hsh2
              injection hsh2 with h2
              subst h2
              exact absurd ⟨hl, hlen⟩ hc

theorem oneHotValidate_error_val {κ : Type} [DecidableEq κ] (vocab : List (κ × Nat))
    (shapes : List (κ × List Nat)) :
    ∀ e, oneHotValidate vocab shapes = .error e → e = .validationError := by
  induction vocab with
  | nil =>
      intro e h
      simp [oneHotValidate] at h
  | cons kv rest ih =>
      intro e h
      cases hg : dictGet kv.1 shapes with
      | none =>
          simp only [oneHotValidate, hg, Except.error.injEq] at h
          exact h.symm
      | some sh =>
          by_cases hc : sh.getLast? = some 1 ∧ sh.length = 3
          · simp only [oneHotValidate, hg, if_pos hc] at h
            exact ih e h
          · simp only [oneHotValidate, hg, if_neg hc, Except.error.injEq] at h
            exact h.symm

/-- C5 (amended): `OneHot` construction succeeds exactly when every
configured key is present in the inner shapes with a declared shape that is
3-dimensional with last dimension 1, and every failure raises
`IteratorValidationError`.  The vocabulary size is only checked to be an
integer: its value, in particular 0, is never validated. -/
theorem oneHot_construction_checks {κ : Type} [DecidableEq κ]
    (vocab : List (κ × Nat)) (shapes : List (κ × List Nat)) :
    (oneHotValidate vocab shapes = .ok () ↔
      ∀ kv ∈ vocab, ∃ sh, dictGet kv.1 shapes = some sh ∧
        sh.getLast? = some 1 ∧ sh.length = 3) ∧
    ∀ e, oneHotValidate vocab shapes = .error e → e = .validationError :=
  ⟨oneHotValidate_ok_iff vocab shapes, oneHotValidate_error_val vocab shapes⟩

/-- Counterexample to C5 as stated: a configured vocabulary size of 0 is not
a positive integer, yet construction succeeds (only `isinstance(v, int)` is
checked, no positivity), so OneHot construction does not fail on it. -/
theorem oneHot_vocab_zero_accepted_cex :
    oneHotValidate [((0 : Nat), (0 : Nat))] [((0 : Nat), [4, 2, 1])] = .ok () :=
  rfl

/-- Witness for C5 at a concrete configuration that validates. -/
theorem oneHot_construction_checks_witness :
    oneHotValidate [((1 : Nat), (5 : Nat))] [((1 : Nat), [7, 3, 1])] = .ok () :=
  (oneHot_construction_checks [((1 : Nat), 5)] [((1 : Nat), [7, 3, 1])]).1.mpr
    (by
      intro kv hmem
      have h1 : kv = (1, 5) := by simpa using hmem
      subst h1
      exact ⟨[7, 3, 1], by decide, by decide, by decide⟩)

/-- Counterexample to C3 as stated: an explicit length vector of length 3
against 2 sequences does make construction fail, but via the bare Python
`assert` (AssertionError), not via the `IteratorValidationError` that every
other shape check of the module raises (the error class the spec's
ShapeError denotes). -/
theorem minibatches_cut_vector_mismatch_cex :
    Minibatches.make (fun x : Int => x) 1 false (CutSpec.vec [1, 2, 3])
        [((0 : Nat), ⟨[2, 2, 1], [[0, 0], [0, 0]]⟩)] = .error .assertionError ∧
    raisesValidationError (Minibatches.make (fun x : Int => x) 1 false
        (CutSpec.vec [1, 2, 3])
        [((0 : Nat), ⟨[2, 2, 1], [[0, 0], [0, 0]]⟩)]) = false :=
  ⟨rfl, rfl⟩

/-- C3 (amended): for an explicit integer length vector, construction fails
exactly when its length differs from the sequence count — via an assertion
failure (AssertionError), not the IteratorValidationError used for the
module's other shape checks — and when the lengths match the vector becomes
the per-sequence length vector. -/
theorem minibatches_cut_vector_checked {κ α : Type} [DecidableEq κ]
    (toNum : α → Int) (bs : Nat) (sh : Bool) (l : List Nat)
    (named : List (κ × NamedArr α)) (n t : Nat)
    (hv : _assert_correct_data_format (named.map (fun p => (p.1, p.2.shape)))
      = .ok (n, t)) :
    (l.length ≠ n →
      Minibatches.make toNum bs sh (.vec l) named = .error .assertionError) ∧
    (l.length = n → ∃ m, Minibatches.make toNum bs sh (.vec l) named = .ok m ∧
      m.seq_lens = l ∧ m.length = ceilDiv n bs ∧ m.batch_size = bs) := by
  unfold Minibatches.make
  rw [hv]
  simp only [Bind.bind, Except.bind, computeSeqLens]
  constructor
  · intro hne
    rw [if_neg hne]
  · intro heq
    rw [if_pos heq]
    exact ⟨_, rfl, rfl, rfl, rfl⟩

/-- Witness for C3 at a concrete matching vector of length 2. -/
theorem minibatches_cut_vector_checked_witness :
    _assert_correct_data_format
        ([((0 : Nat), (⟨[2, 2, 1], [[0, 0], [0, 0]]⟩ : NamedArr Int))].map
          (fun p => (p.1, p.2.shape))) = .ok (2, 2) ∧
    ([1, 2] : List Nat).length = 2 ∧
    ∃ m, Minibatches.make (fun x : Int => x) 1 false (CutSpec.vec [1, 2])
        [((0 : Nat), ⟨[2, 2, 1], [[0, 0], [0, 0]]⟩)] = .ok m ∧
      m.seq_lens = [1, 2] ∧ m.length = ceilDiv 2 1 ∧ m.batch_size = 1 :=
  ⟨rfl, rfl,
    (minibatches_cut_vector_checked (fun x : Int => x) 1 false [1, 2]
        [((0 : Nat), ⟨[2, 2, 1], [[0, 0], [0, 0]]⟩)] 2 2 rfl).2 rfl⟩

theorem take_replicate_of_le {γ : Type} (m n : Nat) (a : γ) (h : m ≤ n) :
    (List.replicate n a).take m = List.replicate m a := by
  induction m generalizing n with
  | zero => rfl
  | succ m2 ih =>
      cases n with
      | zero => omega
      | succ n2 =>
          rw [List.replicate_succ, List.take_succ_cons, List.replicate_succ,
            ih n2 (by omega)]

theorem drop_replicate_eq {γ : Type} (m n : Nat) (a : γ) :
    (List.replicate n a).drop m = List.replicate (n - m) a := by
  induction m generalizing n with
  | zero => rfl
  | succ m2 ih =>
      cases n with
      | zero => simp
      | succ n2 =>
          rw [List.replicate_succ, List.drop_succ_cons, ih n2]
          congr 1
          omega

theorem zipWith_replicate_left_eq {γ δ ε : Type} (f : γ → δ → ε) (a : γ) :
    ∀ (n : Nat) (l : List δ), l.length = n →
      List.zipWith f (List.replicate n a) l = l.map (f a) := by
  intro n
  induction n with
  | zero =>
      intro l hl
      rw [List.length_eq_zero] at hl
      subst hl
      rfl
  | succ n2 ih =>
      intro l hl
      cases l with
      | nil => simp at hl
      | cons x xs =>
          rw [List.replicate_succ, List.zipWith_cons_cons, List.map_cons,
            ih xs (by simpa using hl)]

theorem assignCenter_explicit (s h w : Nat) (val : ℚ) (img : List (List ℚ))
    (hh : img.length = h) (hw : ∀ r ∈ img, r.length = w) :
    assignCenter s (h + s) s (w + s)
        (List.replicate (h + 2 * s) (List.replicate (w + 2 * s) val)) img
      = List.replicate s (List.replicate (w + 2 * s) val) ++
          img.map (fun r => List.replicate s val ++ r ++ List.replicate s val) ++
          List.replicate s (List.replicate (w + 2 * s) val) := by
  unfold assignCenter
  have e1 : h + s - s = h := by omega
  have e2 : w + s - s = w := by omega
  rw [e1, e2]
  rw [take_replicate_of_le s (h + 2 * s) _ (by omega)]
  rw [drop_replicate_eq s (h + 2 * s)]
  have e3 : h + 2 * s - s = h + s := by omega
  rw [e3, take_replicate_of_le h (h + s) _ (by omega)]
  rw [drop_replicate_eq (h + s) (h + 2 * s)]
  have e4 : h + 2 * s - (h + s) = s := by omega
  rw [e4]
  have hbr : broadcastRows h ([] : List ℚ) img = img := by
    unfold broadcastRows
    rw [if_pos hh]
  rw [hbr, zipWith_replicate_left_eq _ _ h img hh]
  congr 1
  congr 1
  apply List.map_congr_left
  intro r hr
  rw [take_replicate_of_le s (w + 2 * s) _ (by omega)]
  rw [drop_replicate_eq (w + s) (w + 2 * s)]
  have e5 : w + 2 * s - (w + s) = s := by omega
  rw [e5]
  have hbw : broadcastRows w (0 : ℚ) r = r := by
    unfold broadcastRows
    rw [if_pos (hw r hr)]
  rw [hbw]

theorem padArr_heads (a : Arr5 ℚ) (t b c h w : Nat) (ht : 1 ≤ t) (hb : 1 ≤ b)
    (hc : 1 ≤ c) (hh : 1 ≤ h) (hsh : IsShape5 a t b c h w) :
    (((a.headD []).headD []).headD []).length = h ∧
    ((((a.headD []).headD []).headD []).headD []).length = w := by
  obtain ⟨haT, hmem⟩ := hsh
  cases a with
  | nil => rw [List.length_nil] at haT; omega
  | cons x a2 =>
      obtain ⟨hxb, hxm⟩ := hmem x (List.mem_cons_self x a2)
      cases x with
      | nil => rw [List.length_nil] at hxb; omega
      | cons y x2 =>
          obtain ⟨hyc, hym⟩ := hxm y (List.mem_cons_self y x2)
          cases y with
          | nil => rw [List.length_nil] at hyc; omega
          | cons im y2 =>
              obtain ⟨himh, himw⟩ := hym im (List.mem_cons_self im y2)
              cases im with
              | nil => rw [List.length_nil] at himh; omega
              | cons r im2 =>
                  refine ⟨by simpa using himh, ?_⟩
                  have hr := himw r (List.mem_cons_self r im2)
                  simpa using hr

theorem padArr_ok (s : Nat) (val : ℚ) (a : Arr5 ℚ) (t b c h w : Nat)
    (hs : 1 ≤ s) (ht : 1 ≤ t) (hb : 1 ≤ b) (hc : 1 ≤ c) (hh : 1 ≤ h)
    (hsh : IsShape5 a t b c h w) :
    padArr s val a = .ok (paddedExplicit s val w a) := by
  obtain ⟨hch, hcw⟩ := padArr_heads a t b c h w ht hb hc hh hsh
  unfold padArr
  rw [hch, hcw]
  unfold padArrCore
  have e2 : pySliceStop s (h + 2 * s) = h + s := by
    unfold pySliceStop
    rw [if_neg (by omega)]
    omega
  have e2w : pySliceStop s (w + 2 * s) = w + s := by
    unfold pySliceStop
    rw [if_neg (by omega)]
    omega
  rw [e2, e2w]
  rw [Nat.min_eq_left (show s ≤ h + 2 * s by omega)]
  rw [Nat.min_eq_left (show h + s ≤ h + 2 * s by omega)]
  rw [Nat.min_eq_left (show s ≤ w + 2 * s by omega)]
  rw [Nat.min_eq_left (show w + s ≤ w + 2 * s by omega)]
  rw [if_pos ⟨Or.inl (by omega), Or.inl (by omega)⟩]
  congr 1
  unfold paddedExplicit
  apply List.map_congr_left
  intro x hx
  obtain ⟨hxb, hxm⟩ := hsh.2 x hx
  apply List.map_congr_left
  intro y hy
  obtain ⟨hyc, hym⟩ := hxm y hy
  apply List.map_congr_left
  intro im him
  obtain ⟨himh, himw⟩ := hym im him
  exact assignCenter_explicit s h w val im himh himw

theorem paddedExplicit_shape (s : Nat) (val : ℚ) (a : Arr5 ℚ) (t b c h w : Nat)
    (hsh : IsShape5 a t b c h w) :
    IsShape5 (paddedExplicit s val w a) t b c (h + 2 * s) (w + 2 * s) := by
  simp only [IsShape5, paddedExplicit] at *
  obtain ⟨haT, hmem⟩ := hsh
  refine ⟨by simpa using haT, ?_⟩
  intro x hx
  rcases List.mem_map.mp hx with ⟨x0, hx0, rfl⟩
  obtain ⟨hxb, hxm⟩ := hmem x0 hx0
  refine ⟨by simpa using hxb, ?_⟩
  intro y hy
  rcases List.mem_map.mp hy with ⟨y0, hy0, rfl⟩
  obtain ⟨hyc, hym⟩ := hxm y0 hy0
  refine ⟨by simpa using hyc, ?_⟩
  intro im him
  rcases List.mem_map.mp him with ⟨im0, him0, rfl⟩
  obtain ⟨himh, himw⟩ := hym im0 him0
  constructor
  · simp only [List.length_append, List.length_replicate, List.length_map, himh]
    omega
  · intro r hr
    rcases List.mem_append.mp hr with hr1 | hr2
    · rcases List.mem_append.mp hr1 with hr3 | hr4
      · rw [List.eq_of_mem_replicate hr3, List.length_replicate]
      · rcases List.mem_map.mp hr4 with ⟨r0, hr0, rfl⟩
        simp only [List.length_append, List.length_replicate, himw r0 hr0]
        omega
    · rw [List.eq_of_mem_replicate hr2, List.length_replicate]

theorem cropCenter_paddedExplicit (s : Nat) (val : ℚ) (a : Arr5 ℚ)
    (t b c h w : Nat) (hsh : IsShape5 a t b c h w) :
    cropCenter s h w (paddedExplicit s val w a) = a := by
  obtain ⟨haT, hmem⟩ := hsh
  unfold cropCenter paddedExplicit
  rw [List.map_map]
  conv_rhs => rw [← List.map_id a]
  apply List.map_congr_left
  intro x hx
  obtain ⟨hxb, hxm⟩ := hmem x hx
  simp only [Function.comp, id_eq]
  rw [List.map_map]
  conv_rhs => rw [← List.map_id x]
  apply List.map_congr_left
  intro y hy
  obtain ⟨hyc, hym⟩ := hxm y hy
  simp only [Function.comp, id_eq]
  rw [List.map_map]
  conv_rhs => rw [← List.map_id y]
  apply List.map_congr_left
  intro im him
  obtain ⟨himh, himw⟩ := hym im him
  simp only [Function.comp, id_eq]
  rw [List.append_assoc]
  rw [List.drop_left' (List.length_replicate s _)]
  rw [List.take_left' (by rw [List.length_map]; exact himh)]
  rw [List.map_map]
  conv_rhs => rw [← List.map_id im]
  apply List.map_congr_left
  intro r hr
  simp only [Function.comp, id_eq]
  rw [List.append_assoc]
  rw [List.drop_left' (List.length_replicate s _)]
  rw [List.take_left' (himw r hr)]

/-- C7 (amended): for every padding size at least 1 and every 5D array with
nonempty leading axes, Pad yields the array with height and width each
increased by 2 times the size, a size-wide border holding the fill value on
all four spatial sides and the input in the center, and cropping the center
back out reproduces the input exactly. -/
theorem pad_roundtrip (s : Nat) (val : ℚ) (a : Arr5 ℚ) (t b c h w : Nat)
    (hs : 1 ≤ s) (ht : 1 ≤ t) (hb : 1 ≤ b) (hc : 1 ≤ c) (hh : 1 ≤ h)
    (hsh : IsShape5 a t b c h w) :
    padArr s val a = .ok (paddedExplicit s val w a) ∧
    IsShape5 (paddedExplicit s val w a) t b c (h + 2 * s) (w + 2 * s) ∧
    cropCenter s h w (paddedExplicit s val w a) = a :=
  ⟨padArr_ok s val a t b c h w hs ht hb hc hh hsh,
    paddedExplicit_shape s val a t b c h w hsh,
    cropCenter_paddedExplicit s val a t b c h w hsh⟩

/-- Witness for C7 at a concrete 2 by 2 plane padded by 1. -/
theorem pad_roundtrip_witness :
    ((1 : Nat) ≤ 1 ∧ IsShape5 [[[[[(3 : ℚ), 4], [5, 6]]]]] 1 1 1 2 2) ∧
    padArr 1 0 [[[[[(3 : ℚ), 4], [5, 6]]]]]
        = .ok (paddedExplicit 1 0 2 [[[[[(3 : ℚ), 4], [5, 6]]]]]) ∧
    IsShape5 (paddedExplicit 1 0 2 [[[[[(3 : ℚ), 4], [5, 6]]]]]) 1 1 1 4 4 ∧
    cropCenter 1 2 2 (paddedExplicit 1 0 2 [[[[[(3 : ℚ), 4], [5, 6]]]]])
        = [[[[[(3 : ℚ), 4], [5, 6]]]]] :=
  ⟨⟨le_refl 1, by decide⟩,
    pad_roundtrip 1 0 [[[[[(3 : ℚ), 4], [5, 6]]]]] 1 1 1 2 2 (by decide)
      (by decide) (by decide) (by decide) (by decide) (by decide)⟩

/-- Counterexample to C7 as stated: with padding size 0 (a configured
padding size) the transform does not round-trip — the slice `0:-0` is
empty, the input is never copied, and the output is just the fill array. -/
theorem pad_size_zero_not_roundtrip_cex :
    padArr 0 0 [[[[[(3 : ℚ)]]]]] = .ok [[[[[(0 : ℚ)]]]]] ∧
    cropCenter 0 1 1 [[[[[(0 : ℚ)]]]]] ≠ [[[[[(3 : ℚ)]]]]] :=
  ⟨rfl, by decide⟩

/-- Counterexample to C10 as stated: a non-empty input of spatial size
1 by 1 broadcasts silently into the empty `0:-0` region, so the per-key
transform does not fail there (the input is merely dropped). -/
theorem pad_size_zero_silent_cex :
    padArr 0 2 [[[[[(7 : ℚ)]]]]] = .ok [[[[[(2 : ℚ)]]]]] ∧
    padArr 0 2 [[[[[(7 : ℚ)]]]]] ≠ .error .valueError :=
  ⟨rfl, by decide⟩

/-- C10 (amended): with padding size 0 and a non-empty input whose height
or width is at least 2, the per-key transform of Pad raises ValueError (the
center slice `0:-0` is empty and the input cannot broadcast into it), and
Pad with size 0 is not the identity transform. -/
theorem pad_size_zero_fails (val : ℚ) (a : Arr5 ℚ) (t b c h w : Nat)
    (ht : 1 ≤ t) (hb : 1 ≤ b) (hc : 1 ≤ c) (hh : 1 ≤ h)
    (hsh : IsShape5 a t b c h w) (hbig : 2 ≤ h ∨ 2 ≤ w) :
    padArr 0 val a = .error .valueError ∧ padArr 0 val a ≠ .ok a := by
  obtain ⟨hch, hcw⟩ := padArr_heads a t b c h w ht hb hc hh hsh
  have hfail : padArr 0 val a = .error .valueError := by
    unfold padArr
    rw [hch, hcw]
    unfold padArrCore
    have z2 : pySliceStop 0 (h + 2 * 0) = 0 := by
      unfold pySliceStop
      rw [if_pos rfl]
    have z2w : pySliceStop 0 (w + 2 * 0) = 0 := by
      unfold pySliceStop
      rw [if_pos rfl]
    rw [z2, z2w]
    rw [Nat.min_eq_left (Nat.zero_le (h + 2 * 0))]
    rw [Nat.min_eq_left (Nat.zero_le (w + 2 * 0))]
    rw [if_neg (by omega)]
  refine ⟨hfail, ?_⟩
  rw [hfail]
  intro hcon
  exact Except.noConfusion hcon

/-- Witness for C10 at a concrete 2 by 2 plane with size 0. -/
theorem pad_size_zero_fails_witness :
    (IsShape5 [[[[[(1 : ℚ), 2], [3, 4]]]]] 1 1 1 2 2 ∧ ((2 : Nat) ≤ 2 ∨ 2 ≤ 2)) ∧
    padArr 0 5 [[[[[(1 : ℚ), 2], [3, 4]]]]] = .error .valueError ∧
    padArr 0 5 [[[[[(1 : ℚ), 2], [3, 4]]]]] ≠ .ok [[[[[(1 : ℚ), 2], [3, 4]]]]] :=
  ⟨⟨by decide, Or.inl (by decide)⟩,
    pad_size_zero_fails 5 [[[[[(1 : ℚ), 2], [3, 4]]]]] 1 1 1 2 2 (by decide)
      (by decide) (by decide) (by decide) (by decide) (Or.inl (by decide))⟩

theorem le_ceilDiv_mul (n bs : Nat) (h : 1 ≤ bs) : n ≤ ceilDiv n bs * bs := by
  unfold ceilDiv
  rcases Nat.eq_zero_or_pos n with rfl | hn
  · simp
  · have h1 : n + bs - 1 = n - 1 + bs := by omega
    rw [h1, Nat.add_div_right _ (by omega)]
    have h3 := Nat.div_add_mod (n - 1) bs
    have h4 := Nat.mod_lt (n - 1) (show 0 < bs by omega)
    calc n = n - 1 + 1 := by omega
      _ = bs * ((n - 1) / bs) + ((n - 1) % bs + 1) := by omega
      _ ≤ bs * ((n - 1) / bs) + bs := Nat.add_le_add_left (by omega) _
      _ = ((n - 1) / bs + 1) * bs := by rw [Nat.succ_mul, Nat.mul_comm]

theorem npSlice_eq_map_getD {γ : Type} (l : List γ) (a b : Nat) (d : γ) :
    npSlice l a b
      = (List.range' a (min b l.length - a)).map (fun j => l.getD j d) := by
  apply List.ext_getElem?
  intro i
  rw [npSlice, List.getElem?_take, List.getElem?_drop, List.getElem?_map]
  by_cases h1 : i < min b l.length - a
  · have hiab : i < b - a := by omega
    have hail : a + i < l.length := by omega
    rw [if_pos hiab, List.getElem?_range' a 1 h1]
    simp [List.getD_eq_getElem?_getD, List.getElem?_eq_getElem hail, Nat.one_mul]
  · have hnone : (List.range' a (min b l.length - a))[i]? = none := by
      apply List.getElem?_eq_none
      simpa using (by omega : min b l.length - a ≤ i)
    rw [hnone]
    split
    · apply List.getElem?_eq_none
      omega
    · rfl

theorem coveredIdx_flatten (bs n : Nat) (hbs : 1 ≤ bs) :
    ((List.range (ceilDiv n bs)).map (coveredIdx bs n)).flatten = List.range n := by
  suffices haux : ∀ k, ((List.range k).map (coveredIdx bs n)).flatten
      = List.range' 0 (min (k * bs) n) by
    rw [haux (ceilDiv n bs), Nat.min_eq_right (le_ceilDiv_mul n bs hbs)]
    exact (List.range_eq_range' n).symm
  intro k
  induction k with
  | zero => simp
  | succ k2 ih =>
      rw [List.range_succ, List.map_append, List.flatten_append, ih]
      simp only [List.map_cons, List.map_nil, List.flatten_cons,
        List.flatten_nil, List.append_nil]
      unfold coveredIdx
      rw [Nat.succ_mul]
      generalize k2 * bs = q
      by_cases h2 : q ≤ n
      · rw [Nat.min_eq_left h2]
        have happ := List.range'_append_1 0 q (min (q + bs) n - q)
        rw [Nat.zero_add] at happ
        rw [happ]
        congr 1
        omega
      · rw [Nat.min_eq_right (by omega : n ≤ q)]
        have h4 : min (q + bs) n = n := Nat.min_eq_right (by omega)
        rw [h4]
        have h5 : n - q = 0 := by omega
        rw [h5]
        simp [List.range']

theorem minibatches_make_fields {κ α : Type} [DecidableEq κ] (toNum : α → Int)
    (bs : Nat) (sh : Bool) (cut : CutSpec κ) (named : List (κ × NamedArr α))
    (n t : Nat) (m : Minibatches κ α)
    (hv : _assert_correct_data_format (named.map (fun p => (p.1, p.2.shape)))
      = .ok (n, t))
    (hmk : Minibatches.make toNum bs sh cut named = .ok m) :
    m.batch_size = bs ∧ m.length = ceilDiv n bs ∧ m.shuffle = sh ∧
    m.data = named.map (fun p => (p.1, p.2.grid)) := by
  unfold Minibatches.make at hmk
  rw [hv] at hmk
  simp only [Bind.bind, Except.bind] at hmk
  cases cut with
  | key s =>
      simp only [computeSeqLens] at hmk
      cases hd : dictGet s named with
      | none =>
          rw [hd] at hmk
          simp only [seqLensFromKey, Except.ok.injEq] at hmk
          subst hmk
          exact ⟨rfl, rfl, rfl, rfl⟩
      | some arr =>
          rw [hd] at hmk
          simp only [seqLensFromKey] at hmk
          cases hcl : _calculate_lengths_from_mask arr.shape
              (arr.grid.map (fun row => row.map toNum)) with
          | error e =>
              rw [hcl] at hmk
              exact absurd hmk (by simp)
          | ok lens =>
              rw [hcl] at hmk
              simp only [Except.ok.injEq] at hmk
              subst hmk
              exact ⟨rfl, rfl, rfl, rfl⟩
  | vec l =>
      simp only [computeSeqLens] at hmk
      by_cases hl : l.length = n
      · rw [if_pos hl] at hmk
        simp only [Except.ok.injEq] at hmk
        subst hmk
        exact ⟨rfl, rfl, rfl, rfl⟩
      · rw [if_neg hl] at hmk
        exact absurd hmk (by simp)

/-- C1: for every valid named-array set with n sequences (any cut
specification that constructs), batch size at least 1 and shuffle flag, one
pass of `Minibatches` yields exactly `ceil(n / batch_size)` batches; the
batch at position i of the (possibly shuffled) index order, holding
permuted index idx, slices every array to the batch-axis indices
`[idx*batch_size, (idx+1)*batch_size)` clipped to n (the last batch short);
and the union of the covered batch-axis indices over the whole pass is
exactly `{0..n-1}`, each index exactly once. -/
theorem minibatches_pass_coverage {κ α : Type} [DecidableEq κ] (toNum : α → Int)
    (bs : Nat) (sh : Bool) (cut : CutSpec κ) (named : List (κ × NamedArr α))
    (n t : Nat) (m : Minibatches κ α) (shufflePerm : List Nat) (d : α)
    (hbs : 1 ≤ bs)
    (hv : _assert_correct_data_format (named.map (fun p => (p.1, p.2.shape)))
      = .ok (n, t))
    (hmk : Minibatches.make toNum bs sh cut named = .ok m)
    (hperm : shufflePerm.Perm (List.range m.length)) :
    m.batch_size = bs ∧ m.length = ceilDiv n bs ∧
    (m.call shufflePerm).length = ceilDiv n bs ∧
    (∀ i idx : Nat,
      (if m.shuffle then shufflePerm else List.range m.length)[i]? = some idx →
      (m.call shufflePerm)[i]? = some (m.data.map (fun p =>
        (p.1, (npSlice p.2 0 (npMaxNat (npSlice m.seq_lens (idx * bs)
            ((idx + 1) * bs)))).map
          (fun row => npSlice row (idx * bs) ((idx + 1) * bs)))))) ∧
    (∀ (row : List α) (idx : Nat), row.length = n →
      npSlice row (idx * bs) ((idx + 1) * bs)
        = (coveredIdx bs n idx).map (fun j => row.getD j d)) ∧
    ((if m.shuffle then shufflePerm else List.range m.length).map
        (coveredIdx bs n)).flatten.Perm (List.range n) := by
  obtain ⟨hmbs, hmlen, hmsh, hmdata⟩ :=
    minibatches_make_fields toNum bs sh cut named n t m hv hmk
  have hindlen : (if m.shuffle then shufflePerm else List.range m.length).length
      = m.length := by
    cases hs2 : m.shuffle
    · simp
    · simp [hperm.length_eq]
  refine ⟨hmbs, hmlen, ?_, ?_, ?_, ?_⟩
  · simp only [Minibatches.call, List.length_map]
    rw [hindlen, hmlen]
  · intro i idx hidx
    simp only [Minibatches.call, List.getElem?_map, hidx, Option.map_some', hmbs]
  · intro row idx hrow
    rw [npSlice_eq_map_getD row (idx * bs) ((idx + 1) * bs) d, hrow]
    rfl
  · have hbase : ((List.range (ceilDiv n bs)).map (coveredIdx bs n)).flatten
        = List.range n := coveredIdx_flatten bs n hbs
    cases hs2 : m.shuffle
    · simp only [hs2, Bool.false_eq_true, if_false]
      rw [hmlen, hbase]
    · simp only [hs2, if_true]
      have heq : ((List.range m.length).map (coveredIdx bs n)).flatten
          = List.range n := by
        rw [hmlen, hbase]
      exact (hperm.map _).flatten.trans (heq ▸ List.Perm.refl _)

/-- Witness for C1: two sequences, batch size 1, shuffled pass in order
[1, 0]; the pass yields 2 batches and covers each index once. -/
theorem minibatches_pass_coverage_witness :
    ((1 : Nat) ≤ 1 ∧
      _assert_correct_data_format
        ([((0 : Nat), (⟨[1, 2, 1], [[7, 8]]⟩ : NamedArr Int))].map
          (fun p => (p.1, p.2.shape))) = .ok (2, 1) ∧
      Minibatches.make (fun x : Int => x) 1 true (CutSpec.key 9)
          [((0 : Nat), ⟨[1, 2, 1], [[7, 8]]⟩)]
        = .ok (⟨[(0, [1, 2, 1])], 2, [(0, [[7, 8]])], true, 1, [1, 1]⟩ :
            Minibatches Nat Int) ∧
      ([1, 0] : List Nat).Perm (List.range
        (⟨[(0, [1, 2, 1])], 2, [(0, [[7, 8]])], true, 1, [1, 1]⟩ :
          Minibatches Nat Int).length)) ∧
    ((⟨[(0, [1, 2, 1])], 2, [(0, [[7, 8]])], true, 1, [1, 1]⟩ :
        Minibatches Nat Int).call [1, 0]).length = ceilDiv 2 1 ∧
    ((if (⟨[(0, [1, 2, 1])], 2, [(0, [[7, 8]])], true, 1, [1, 1]⟩ :
        Minibatches Nat Int).shuffle then ([1, 0] : List Nat)
      else List.range (⟨[(0, [1, 2, 1])], 2, [(0, [[7, 8]])], true, 1, [1, 1]⟩ :
        Minibatches Nat Int).length).map
      (coveredIdx 1 2)).flatten.Perm (List.range 2) :=
  ⟨⟨by decide, rfl, rfl, by decide⟩,
    (minibatches_pass_coverage (fun x : Int => x) 1 true (CutSpec.key 9)
      [((0 : Nat), ⟨[1, 2, 1], [[7, 8]]⟩)] 2 1
      (⟨[(0, [1, 2, 1])], 2, [(0, [[7, 8]])], true, 1, [1, 1]⟩ :
        Minibatches Nat Int) [1, 0] 0 (by decide) (by rfl) (by rfl)
      (by decide)).2.2.1,
    (minibatches_pass_coverage (fun x : Int => x) 1 true (CutSpec.key 9)
      [((0 : Nat), ⟨[1, 2, 1], [[7, 8]]⟩)] 2 1
      (⟨[(0, [1, 2, 1])], 2, [(0, [[7, 8]])], true, 1, [1, 1]⟩ :
        Minibatches Nat Int) [1, 0] 0 (by decide) (by rfl) (by rfl)
      (by decide)).2.2.2.2.2⟩

end DataIterators
